import Mathlib

/-!
Verification of the PublicTradeBot feature-engineering pipeline.

Shallow embedding of the data-preparation code:
  - `5_feature_engineering.py` : label generation (`create_targets`), the
    sentiment / Google-Trends merges, `finalize_dataset`, `market_position`;
  - `4_technical_indicators.py` : `calculate_rsi`, the per-asset driver
    `calculate_technical_features`;
  - `3_sentiment_analysis.py` : `calculate_market_sentiment`.

Prices, scores and interests are modelled as exact rationals; pandas NaN is
modelled with `Option` on columns that can hold NaN, and the IEEE special
values reachable in the RSI arithmetic (`inf`, `-inf`, `nan`) are modelled
explicitly by the `PFloat` type.  Dates are integers (days).  Floating-point
square root (used by pandas `Series.std`, ddof = 1) is not exactly
representable over ℚ, so the aggregations that need it are parametrised by
an abstract square-root routine `sq : ℚ → ℚ` applied to the exact sample
variance.  The file is organised as definitions first, then theorems.
-/

namespace PTB

/-! ## Definitions

### Label Generator (`create_targets`, 5_feature_engineering.py lines 103-148) -/

/-- Embedding of `x.pct_change(periods=-H)` applied to one asset's close
series `xs` (chronological order).  pandas computes
`x / x.shift(-H) - 1`, whose value at row `t` is `x[t] / x[t+H] - 1`
when row `t+H` exists and NaN otherwise.  This is the column
`target_return_{H}d` produced by `create_targets`. -/
def pct_change_fwd (H : Nat) (xs : List ℚ) : List (Option ℚ) :=
  (List.range xs.length).map (fun t =>
    match xs[t]?, xs[t + H]? with
    | some a, some b => some (a / b - 1)
    | _, _ => none)

/-- The column `target_return_{H}d` of `create_targets` (per asset). -/
def target_return (H : Nat) (xs : List ℚ) : List (Option ℚ) :=
  pct_change_fwd H xs

/-- Modelled from the spec: the forward return the specification describes,
`(close[t+H] / close[t]) - 1` at row `t` when row `t+H` exists, NaN
otherwise.  Stated only to be compared with `target_return`, the column the
source actually computes. -/
def forward_return_spec (H : Nat) (xs : List ℚ) : List (Option ℚ) :=
  (List.range xs.length).map (fun t =>
    match xs[t]?, xs[t + H]? with
    | some a, some b => some (b / a - 1)
    | _, _ => none)

/-- The direction threshold chosen in `create_targets`:
`0.03 if period >= 14 else 0.02 if period >= 7 else 0.015`. -/
def threshold (period : Nat) : ℚ :=
  if 14 ≤ period then 3 / 100 else if 7 ≤ period then 2 / 100 else 15 / 1000

/-- First assignment of `create_targets`:
`(target_return > threshold).astype(int)`.  A NaN return compares false,
hence yields 0. -/
def direction_step1 (th : ℚ) (r : Option ℚ) : ℤ :=
  match r with
  | some q => if th < q then 1 else 0
  | none => 0

/-- Both assignments of `create_targets`: after the comparison above, the
masked assignment `df[dir][df[ret] < -threshold] = 0` overwrites with 0
exactly the rows whose return is below `-threshold` (a NaN return leaves the
mask false). -/
def target_direction (th : ℚ) (r : Option ℚ) : ℤ :=
  match r with
  | some q => if q < -th then 0 else direction_step1 th r
  | none => direction_step1 th r

/-- The column `target_direction_{H}d` of `create_targets` (per asset). -/
def target_direction_col (H : Nat) (xs : List ℚ) : List ℤ :=
  (target_return H xs).map (target_direction (threshold H))

/-! ### Indicator Engine (`calculate_rsi`, 4_technical_indicators.py lines 104-118)

pandas arithmetic on price deltas can produce the IEEE special values
`inf`, `-inf` and `nan` (for example `rs = gain / loss` with `loss = 0`),
so the RSI column is modelled over `PFloat`, rationals extended with those
three values, with the IEEE rules for the operations the code performs. -/

/-- A pandas float value: an exact rational, `inf`, `-inf`, or `nan`. -/
inductive PFloat where
  | num (q : ℚ)
  | inf
  | ninf
  | nan
deriving DecidableEq

/-- IEEE addition on `PFloat`. -/
def PFloat.add : PFloat → PFloat → PFloat
  | nan, _ => nan
  | _, nan => nan
  | num a, num b => num (a + b)
  | inf, ninf => nan
  | ninf, inf => nan
  | inf, _ => inf
  | _, inf => inf
  | ninf, _ => ninf
  | _, ninf => ninf

/-- IEEE subtraction on `PFloat`. -/
def PFloat.sub : PFloat → PFloat → PFloat
  | nan, _ => nan
  | _, nan => nan
  | num a, num b => num (a - b)
  | inf, inf => nan
  | ninf, ninf => nan
  | inf, _ => inf
  | _, inf => ninf
  | ninf, _ => ninf
  | _, ninf => inf

/-- IEEE division on `PFloat` (numpy semantics: `x/0 = inf` for `x > 0`,
`0/0 = nan`, `x/inf = 0`). -/
def PFloat.div : PFloat → PFloat → PFloat
  | nan, _ => nan
  | _, nan => nan
  | num a, num b =>
      if b = 0 then (if a = 0 then nan else if 0 < a then inf else ninf)
      else num (a / b)
  | num _, inf => num 0
  | num _, ninf => num 0
  | inf, inf => nan
  | inf, ninf => nan
  | ninf, inf => nan
  | ninf, ninf => nan
  | inf, num b => if 0 ≤ b then inf else ninf
  | ninf, num b => if 0 ≤ b then ninf else inf

/-- `series.diff()`: NaN at row 0, `x[i] - x[i-1]` afterwards. -/
def diffs (xs : List ℚ) : List PFloat :=
  (List.range xs.length).map (fun i =>
    if i = 0 then PFloat.nan
    else
      match xs[i]?, xs[i - 1]? with
      | some a, some b => PFloat.num (a - b)
      | _, _ => PFloat.nan)

/-- `delta.where(delta > 0, 0)`: the positive deltas, with NaN (row 0) and
non-positive deltas replaced by 0 (NaN compares false). -/
def gains (xs : List ℚ) : List ℚ :=
  (diffs xs).map (fun d =>
    match d with
    | PFloat.num q => if 0 < q then q else 0
    | _ => 0)

/-- `-delta.where(delta < 0, 0)`: the negated negative deltas, with NaN and
non-negative deltas replaced by 0. -/
def losses (xs : List ℚ) : List ℚ :=
  (diffs xs).map (fun d =>
    match d with
    | PFloat.num q => if q < 0 then -q else 0
    | _ => 0)

/-- `series.rolling(window=w).mean()`: NaN (`none`) until `w` observations
exist, then the mean of the trailing `w` entries. -/
def rolling_mean (w : Nat) (xs : List ℚ) : List (Option ℚ) :=
  (List.range xs.length).map (fun i =>
    if w ≤ i + 1 then some ((((xs.drop (i + 1 - w)).take w).sum) / w) else none)

/-- One entry of `100 - 100/(1 + gain/loss)` given the rolling means of
gains and losses at that row (NaN for a not-yet-full window). -/
def rsi_of_means (g l : Option ℚ) : PFloat :=
  match g, l with
  | some gq, some lq =>
      PFloat.sub (PFloat.num 100)
        (PFloat.div (PFloat.num 100)
          (PFloat.add (PFloat.num 1) (PFloat.div (PFloat.num gq) (PFloat.num lq))))
  | _, _ => PFloat.nan

/-- Embedding of `calculate_rsi(series, period)`. -/
def calculate_rsi (xs : List ℚ) (period : Nat) : List PFloat :=
  List.zipWith rsi_of_means
    (rolling_mean period (gains xs)) (rolling_mean period (losses xs))

/-! ### Per-asset driver (`calculate_technical_features`,
4_technical_indicators.py lines 207-300)

The driver iterates over `df["asset"].unique()` (first-occurrence order),
sorts each asset's rows by date, skips the asset when it has fewer than 100
rows, and otherwise emits one output row per input row carrying the
indicator columns; only the RSI column is carried here, the other indicator
columns are irrelevant to the claims about this function. -/

structure PriceRow where
  asset : String
  date : ℤ
  close : ℚ
deriving DecidableEq

structure FeatRow where
  asset : String
  date : ℤ
  close : ℚ
  rsi : PFloat
deriving DecidableEq

/-- The per-asset body of the loop in `calculate_technical_features`:
`df_asset.sort_values("date")` followed by the indicator computations. -/
def process_asset (rows : List PriceRow) : List FeatRow :=
  let sorted := rows.mergeSort (fun a b => decide (a.date ≤ b.date))
  List.zipWith (fun (r : PriceRow) (v : PFloat) => ⟨r.asset, r.date, r.close, v⟩)
    sorted (calculate_rsi (sorted.map (·.close)) 14)

/-- One iteration of the asset loop in `calculate_technical_features`:
the asset's rows are selected; with fewer than 100 rows the asset is
skipped (`continue`, contributing nothing), otherwise it is processed. -/
def tech_block (df : List PriceRow) (a : String) : List FeatRow :=
  let sub := df.filter (fun r => decide (r.asset = a))
  if sub.length < 100 then [] else process_asset sub

/-- Embedding of `calculate_technical_features`: the loop runs over
`df["asset"].unique()` (first-occurrence order, `dedup` here) and the
per-asset results are concatenated. -/
def calculate_technical_features (df : List PriceRow) : List FeatRow :=
  (((df.map (·.asset)).dedup).map (tech_block df)).flatten

/-! ### Statistics helpers shared by the aggregation steps -/

/-- `Series.mean()` of a column without NaN. -/
def mean_q (l : List ℚ) : ℚ := l.sum / l.length

/-- `Series.mean()` of a column that may hold NaN: pandas skips NaN and
returns NaN when every value is NaN. -/
def mean_skipna (l : List (Option ℚ)) : Option ℚ :=
  let vs := l.reduceOption
  if vs.length = 0 then none else some (vs.sum / vs.length)

/-- The exact sample variance (`ddof = 1`): NaN (`none`) for fewer than two
observations. -/
def sample_var (l : List ℚ) : Option ℚ :=
  if l.length ≤ 1 then none
  else some (((l.map (fun x => (x - mean_q l) ^ 2)).sum) / ((l.length : ℚ) - 1))

/-- `Series.std()` (ddof = 1): the square-root routine `sq` applied to the
exact sample variance; NaN for fewer than two observations. -/
def sample_std (sq : ℚ → ℚ) (l : List ℚ) : Option ℚ :=
  (sample_var l).map sq

/-! ### Sentiment Aggregator (`calculate_market_sentiment`,
3_sentiment_analysis.py lines 296-336) -/

inductive SentLabel where
  | positive
  | negative
  | neutral
deriving DecidableEq

/-- One scored article: a date, a sentiment score and a label. -/
structure NewsEvent where
  date : ℤ
  score : ℚ
  label : SentLabel
deriving DecidableEq

/-- One row of the daily market-sentiment table. -/
structure DailyRow where
  date : ℤ
  sentiment_mean : ℚ
  sentiment_std : Option ℚ
  sentiment_min : ℚ
  sentiment_max : ℚ
  sentiment_balance : ℤ
  stress_index : ℚ
deriving DecidableEq

/-- The aggregates `calculate_market_sentiment` computes for the group `g`
of events on date `d`: mean/std/min/max of the scores,
`balance = #positive - #negative`, and
`stress_index = sentiment_std.fillna(0) * 100`. -/
def daily_row_of (sq : ℚ → ℚ) (d : ℤ) (g : List NewsEvent) : DailyRow :=
  let scores := g.map (·.score)
  { date := d
    sentiment_mean := mean_q scores
    sentiment_std := sample_std sq scores
    sentiment_min := (scores.min?).getD 0
    sentiment_max := (scores.max?).getD 0
    sentiment_balance :=
      (g.countP (fun e => decide (e.label = SentLabel.positive)) : ℤ)
        - (g.countP (fun e => decide (e.label = SentLabel.negative)) : ℤ)
    stress_index := ((sample_std sq scores).getD 0) * 100 }

/-- Embedding of `calculate_market_sentiment`: group the events by calendar
date (pandas `groupby` sorts the keys ascending) and aggregate each group;
dates with no event produce no row. -/
def calculate_market_sentiment (sq : ℚ → ℚ) (evs : List NewsEvent) :
    List DailyRow :=
  (((evs.map (·.date)).dedup).mergeSort (fun a b => decide (a ≤ b))).map
    (fun d => daily_row_of sq d (evs.filter (fun e => decide (e.date = d))))

/-! ### Feature Composer merges (`merge_sentiment_features` and
`merge_google_trends`, 5_feature_engineering.py lines 156-287)

A technical-features row only needs its date and asset here.  The merged
sentiment / search-interest columns are modelled as an `Option` record
attached to each row: `none` models the branch `if df is None: return
df_technical`, where the columns are never added at all. -/

structure TechRow where
  asset : String
  date : ℤ
deriving DecidableEq

/-- One row of `market_sentiment.csv` as the composer reads it back:
`sentiment_std` is NaN on the dates that had a single article. -/
structure SentDay where
  date : ℤ
  sentiment_mean : ℚ
  sentiment_std : Option ℚ
  stress_index : ℚ
deriving DecidableEq

/-- The four sentiment columns the composer adds. -/
structure SentFeat where
  sentiment_mean_7d : ℚ
  sentiment_std_7d : Option ℚ
  sentiment_trend_7d : ℚ
  stress_index_7d : ℚ
deriving DecidableEq

/-- The window filter
`(ms["date"] >= date - timedelta(days=lag)) & (ms["date"] <= date)`. -/
def sentiment_window (ms : List SentDay) (lag d : ℤ) : List SentDay :=
  ms.filter (fun r => decide (d - lag ≤ r.date ∧ r.date ≤ d))

/-- The per-row feature dictionary built by `merge_sentiment_features`:
window aggregates when the window is non-empty, the literal defaults
`{0, 0, 0, 0}` otherwise. -/
def sent_features_at (ms : List SentDay) (lag d : ℤ) : SentFeat :=
  let w := sentiment_window ms lag d
  if w.length = 0 then
    { sentiment_mean_7d := 0
      sentiment_std_7d := some 0
      sentiment_trend_7d := 0
      stress_index_7d := 0 }
  else
    { sentiment_mean_7d := mean_q (w.map (·.sentiment_mean))
      sentiment_std_7d := mean_skipna (w.map (·.sentiment_std))
      sentiment_trend_7d :=
        if 1 < w.length then
          ((w.getLast?.map (·.sentiment_mean)).getD 0)
            - ((w.head?.map (·.sentiment_mean)).getD 0)
        else 0
      stress_index_7d := mean_q (w.map (·.stress_index)) }

/-- Embedding of `merge_sentiment_features`: with no sentiment table the
input is returned unchanged (no sentiment columns); otherwise every row
gets the lag-window features for its date. -/
def merge_sentiment_features (tech : List TechRow)
    (ms : Option (List SentDay)) (lag : ℤ) : List (TechRow × Option SentFeat) :=
  match ms with
  | none => tech.map (fun r => (r, none))
  | some m => tech.map (fun r => (r, some (sent_features_at m lag r.date)))

/-- One row of `google_trends.csv`. -/
structure TrendRow where
  asset : String
  date : ℤ
  interest : ℚ
deriving DecidableEq

/-- The six search-interest columns the composer adds.  The std column uses
pandas `Series.std()` (ddof = 1), NaN for a single-point window. -/
structure TrendFeat where
  trends_interest_mean_7d : ℚ
  trends_interest_max_7d : ℚ
  trends_interest_min_7d : ℚ
  trends_interest_std_7d : Option ℚ
  trends_interest_trend_7d : ℚ
  trends_interest_current : ℚ
deriving DecidableEq

/-- The window filter of `merge_google_trends`: same date window, further
restricted to the row's asset. -/
def trends_window (tr : List TrendRow) (a : String) (lag d : ℤ) :
    List TrendRow :=
  tr.filter (fun r => decide (r.asset = a ∧ d - lag ≤ r.date ∧ r.date ≤ d))

/-- The per-row feature dictionary built by `merge_google_trends`: window
aggregates when the window is non-empty, the literal neutral defaults
`{50, 50, 50, 0, 0, 50}` otherwise. -/
def trend_features_at (sq : ℚ → ℚ) (tr : List TrendRow) (a : String)
    (lag d : ℤ) : TrendFeat :=
  let w := trends_window tr a lag d
  let interests := w.map (·.interest)
  if w.length = 0 then
    { trends_interest_mean_7d := 50
      trends_interest_max_7d := 50
      trends_interest_min_7d := 50
      trends_interest_std_7d := some 0
      trends_interest_trend_7d := 0
      trends_interest_current := 50 }
  else
    { trends_interest_mean_7d := mean_q interests
      trends_interest_max_7d := (interests.max?).getD 0
      trends_interest_min_7d := (interests.min?).getD 0
      trends_interest_std_7d := sample_std sq interests
      trends_interest_trend_7d :=
        if 1 < w.length then
          ((interests.getLast?).getD 0) - ((interests.head?).getD 0)
        else 0
      trends_interest_current := (interests.getLast?).getD 50 }

/-- Embedding of `merge_google_trends`, applied (as in `main`) to the output
of the sentiment merge: with no trends table the input is returned
unchanged, otherwise every row gets the per-asset lag-window features. -/
def merge_google_trends (sq : ℚ → ℚ) (tech : List (TechRow × Option SentFeat))
    (tr : Option (List TrendRow)) (lag : ℤ) :
    List ((TechRow × Option SentFeat) × Option TrendFeat) :=
  match tr with
  | none => tech.map (fun p => (p, none))
  | some t => tech.map (fun p => (p, some (trend_features_at sq t p.1.asset lag p.1.date)))

/-- The composer stage as `main` runs it: the sentiment merge followed by
the Google-Trends merge, both with the same lag window. -/
def feature_composer (sq : ℚ → ℚ) (tech : List TechRow)
    (ms : Option (List SentDay)) (tr : Option (List TrendRow)) (lag : ℤ) :
    List ((TechRow × Option SentFeat) × Option TrendFeat) :=
  merge_google_trends sq (merge_sentiment_features tech ms lag) tr lag

/-! ### Dataset Finalizer (`finalize_dataset`,
5_feature_engineering.py lines 490-563)

A row entering the finalizer is its keys (asset id, date), its feature
columns (the fill-and-drop set), the `market_position` column — which the
source explicitly excludes from that set — and its target columns.
`market_position` is the categorical `pd.cut(rsi, bins=[0, 30, 70, 100])`
computed earlier by `engineer_additional_features`; the three labels are
encoded 0 = oversold, 1 = neutral, 2 = overbought, NaN = `none`. -/

/-- `pd.cut(rsi, bins=[0, 30, 70, 100], labels=[...])`: right-closed,
left-open intervals; an RSI that is NaN or outside (0, 100] yields NaN. -/
def market_position (rsi : Option ℚ) : Option Nat :=
  match rsi with
  | none => none
  | some q =>
      if 0 < q ∧ q ≤ 30 then some 0
      else if 30 < q ∧ q ≤ 70 then some 1
      else if 70 < q ∧ q ≤ 100 then some 2
      else none

structure FRow where
  asset : Nat
  date : ℤ
  features : List (Option ℚ)
  marketPos : Option Nat
  targets : List (Option ℚ)
deriving DecidableEq

/-- Forward fill of a feature matrix, row by row: a NaN cell takes the value
of the same column in the previous row (already filled), a non-NaN cell is
kept.  `carry` is the last filled row. -/
def ffill_go (carry : List (Option ℚ)) :
    List (List (Option ℚ)) → List (List (Option ℚ))
  | [] => []
  | f :: rest =>
      let g := List.zipWith (fun v c =>
        match v with
        | some x => some x
        | none => c) f carry
      g :: ffill_go g rest

/-- `fillna(method="ffill")` on the feature columns of one asset's rows. -/
def ffill_mat (rows : List (List (Option ℚ))) : List (List (Option ℚ)) :=
  match rows with
  | [] => []
  | f :: _ => ffill_go (f.map (fun _ => none)) rows

/-- `fillna(method="bfill")`: a forward fill on the reversed rows. -/
def bfill_mat (rows : List (List (Option ℚ))) : List (List (Option ℚ)) :=
  (ffill_mat rows.reverse).reverse

/-- The per-asset fill of `finalize_dataset`: forward fill then backward
fill on the feature columns only; keys, `market_position` and targets are
untouched. -/
def fill_asset (rows : List FRow) : List FRow :=
  List.zipWith (fun (r : FRow) f => { r with features := f })
    rows (bfill_mat (ffill_mat (rows.map (·.features))))

/-- The lexicographic key order used by `sort_values(["asset", "date"])`. -/
def frow_le (r s : FRow) : Bool :=
  decide (r.asset < s.asset ∨ (r.asset = s.asset ∧ r.date ≤ s.date))

/-- Steps 1-3 of `finalize_dataset`:
1. drop the rows with a NaN target (`dropna(subset=target_cols)`);
2. per asset, forward- then backward-fill the feature columns;
3. drop the rows still holding a NaN feature (`dropna(subset=feature_cols)`).
`market_position` is in neither fill set nor drop set. -/
def finalize_pre (df : List FRow) : List FRow :=
  let d1 := df.filter (fun r => r.targets.all Option.isSome)
  let d2 := (((d1.map (·.asset)).dedup).map (fun a =>
    fill_asset (d1.filter (fun r => decide (r.asset = a))))).flatten
  d2.filter (fun r => r.features.all Option.isSome)

/-- Embedding of `finalize_dataset`: the drops and fills above, then step 4,
`sort_values(["asset", "date"])`. -/
def finalize_dataset (df : List FRow) : List FRow :=
  (finalize_pre df).mergeSort frow_le

/-! ## Theorems -/

theorem target_direction_some_eq_one_iff (th : ℚ) (hth : 0 < th) (q : ℚ) :
    target_direction th (some q) = 1 ↔ th < q := by
  simp only [target_direction, direction_step1]
  split_ifs with h1 h2
  · constructor
    · intro h; norm_num at h
    · intro h; linarith
  · simp [h2]
  · constructor
    · intro h; norm_num at h
    · intro h; exact absurd h h2

/-- C1: the specification says `target_return_Hd` at row `t` equals
`(close[t+H]/close[t]) - 1`, but `create_targets` computes
`pct_change(periods=-H)`, whose value at row `t` is
`close[t]/close[t+H] - 1`.  On the close series `[100, 100, 100, 200]`
with `H = 3`, row 0 of the code's column is `-1/2` while the specified
forward return is `1` (the trailing `H` rows are NaN in both, as claimed).
The code's own comments ("calculer le return futur", "> 3% = UP") show the
spec's formula is the intent, so the code is the slip. -/
theorem c1_forward_return_formula_bug :
    target_return 3 [100, 100, 100, 200] = [some (-(1 / 2)), none, none, none] ∧
    forward_return_spec 3 [100, 100, 100, 200] = [some 1, none, none, none] := by
  constructor <;>
    norm_num [target_return, pct_change_fwd, forward_return_spec, List.range_succ]

/-- C2: for each horizon H ∈ {3,7,14}, the threshold is 0.015 / 0.02 / 0.03
respectively, and `target_direction_Hd` is 1 exactly when the (numeric)
`target_return_Hd` is strictly greater than the threshold: a return of
exactly +0.015 at H = 3 is labelled 0, +0.0151 is labelled 1, and any
return below `-threshold` or inside `[-threshold, threshold]` is
labelled 0. -/
theorem c2_direction_strict_threshold (H : Nat) (hH : H = 3 ∨ H = 7 ∨ H = 14)
    (xs : List ℚ) (t : Nat) :
    threshold 3 = 15 / 1000 ∧ threshold 7 = 2 / 100 ∧ threshold 14 = 3 / 100 ∧
    ((target_direction_col H xs)[t]? = some 1 ↔
      ∃ q, (target_return H xs)[t]? = some (some q) ∧ threshold H < q) ∧
    target_direction (threshold 3) (some (15 / 1000)) = 0 ∧
    target_direction (threshold 3) (some (151 / 10000)) = 1 ∧
    (∀ q : ℚ, q < -(threshold H) → target_direction (threshold H) (some q) = 0) ∧
    (∀ q : ℚ, -(threshold H) ≤ q → q ≤ threshold H →
      target_direction (threshold H) (some q) = 0) := by
  have hpos : 0 < threshold H := by
    rcases hH with h | h | h <;> subst h <;> norm_num [threshold]
  refine ⟨by norm_num [threshold], by norm_num [threshold], by norm_num [threshold],
    ?_, by norm_num [target_direction, direction_step1, threshold],
    by norm_num [target_direction, direction_step1, threshold], ?_, ?_⟩
  · rw [target_direction_col, List.getElem?_map]
    cases hr : (target_return H xs)[t]? with
    | none => simp
    | some r =>
      simp only [Option.map_some', Option.some.injEq]
      cases r with
      | none =>
        constructor
        · intro h
          exact absurd h (by norm_num [target_direction, direction_step1])
        · rintro ⟨q, hq, hlt⟩
          exact absurd hq (by simp)
      | some q =>
        rw [target_direction_some_eq_one_iff (threshold H) hpos q]
        constructor
        · intro hlt
          exact ⟨q, rfl, hlt⟩
        · rintro ⟨q', hq', hlt⟩
          obtain rfl : q = q' := by simpa using hq'
          exact hlt
  · intro q hq
    simp only [target_direction, direction_step1]
    rw [if_pos hq]
  · intro q hq1 hq2
    simp only [target_direction, direction_step1]
    split_ifs <;> first | rfl | linarith

theorem c2_direction_strict_threshold_witness :
    (3 = 3 ∨ 3 = 7 ∨ 3 = 14) ∧
    (threshold 3 = 15 / 1000 ∧ threshold 7 = 2 / 100 ∧ threshold 14 = 3 / 100 ∧
    ((target_direction_col 3 [100])[0]? = some 1 ↔
      ∃ q, (target_return 3 [100])[0]? = some (some q) ∧ threshold 3 < q) ∧
    target_direction (threshold 3) (some (15 / 1000)) = 0 ∧
    target_direction (threshold 3) (some (151 / 10000)) = 1 ∧
    (∀ q : ℚ, q < -(threshold 3) → target_direction (threshold 3) (some q) = 0) ∧
    (∀ q : ℚ, -(threshold 3) ≤ q → q ≤ threshold 3 →
      target_direction (threshold 3) (some q) = 0)) :=
  ⟨Or.inl rfl, c2_direction_strict_threshold 3 (Or.inl rfl) [100] 0⟩

/-- C10: every entry of `target_direction_{H}d` is exactly 0 or 1, and a row
whose `target_return_{H}d` is NaN (a row within `H` days of the series end)
receives direction 0, never NaN. -/
theorem c10_direction_binary (H : Nat) (xs : List ℚ) :
    (∀ d ∈ target_direction_col H xs, d = 0 ∨ d = 1) ∧
    (∀ t, t < xs.length → xs.length ≤ t + H →
      (target_direction_col H xs)[t]? = some 0) := by
  constructor
  · intro d hd
    rcases List.mem_map.1 hd with ⟨r, _, hr⟩
    subst hr
    cases r with
    | none => left; rfl
    | some q =>
      simp only [target_direction, direction_step1]
      split_ifs
      · left; rfl
      · right; rfl
      · left; rfl
  · intro t ht hlen
    have hret : (target_return H xs)[t]? = some none := by
      rw [target_return, pct_change_fwd, List.getElem?_map]
      rw [List.getElem?_range ht]
      have h1 : xs[t + H]? = none := List.getElem?_eq_none hlen
      rw [Option.map_some']
      rw [List.getElem?_eq_getElem ht, h1]
    rw [target_direction_col, List.getElem?_map, hret, Option.map_some']
    rfl

theorem c10_direction_binary_witness :
    (∀ d ∈ target_direction_col 3 [1, 1, 1, 1, 1], d = 0 ∨ d = 1) ∧
    (target_direction_col 3 [1, 1, 1, 1, 1])[3]? = some 0 :=
  ⟨(c10_direction_binary 3 [1, 1, 1, 1, 1]).1,
   (c10_direction_binary 3 [1, 1, 1, 1, 1]).2 3 (by decide) (by decide)⟩

theorem ffill_go_length (carry : List (Option ℚ)) :
    ∀ rows : List (List (Option ℚ)), (ffill_go carry rows).length = rows.length
  | [] => rfl
  | f :: rest => by
    rw [ffill_go]
    simp only [List.length_cons]
    rw [ffill_go_length _ rest]

theorem ffill_mat_length (rows : List (List (Option ℚ))) :
    (ffill_mat rows).length = rows.length := by
  cases rows with
  | nil => rfl
  | cons f rest => exact ffill_go_length _ _

theorem bfill_mat_length (rows : List (List (Option ℚ))) :
    (bfill_mat rows).length = rows.length := by
  rw [bfill_mat, List.length_reverse, ffill_mat_length, List.length_reverse]

theorem zipWith_set_features_map {β : Type} (g : FRow → β)
    (hg : ∀ (r : FRow) f, g { r with features := f } = g r) :
    ∀ (as : List FRow) (bs : List (List (Option ℚ))), as.length = bs.length →
      (List.zipWith (fun (r : FRow) f => { r with features := f }) as bs).map g
        = as.map g
  | [], _, _ => by simp
  | a :: as, [], h => by simp at h
  | a :: as, b :: bs, h => by
    simp only [List.zipWith_cons_cons, List.map_cons, hg]
    rw [zipWith_set_features_map g hg as bs (by simpa using h)]

theorem fill_asset_map {β : Type} (g : FRow → β)
    (hg : ∀ (r : FRow) f, g { r with features := f } = g r) (rows : List FRow) :
    (fill_asset rows).map g = rows.map g := by
  rw [fill_asset]
  exact zipWith_set_features_map g hg rows _
    (by rw [bfill_mat_length, ffill_mat_length, List.length_map])

theorem fill_asset_targets_mem (rows : List FRow) (r : FRow)
    (hr : r ∈ fill_asset rows) : ∃ r0 ∈ rows, r0.targets = r.targets := by
  have h1 : r.targets ∈ (fill_asset rows).map (·.targets) :=
    List.mem_map.2 ⟨r, hr, rfl⟩
  rw [fill_asset_map (·.targets) (fun _ _ => rfl) rows] at h1
  exact List.mem_map.1 h1

theorem frow_le_total (a b : FRow) : frow_le a b || frow_le b a := by
  simp only [frow_le, Bool.or_eq_true, decide_eq_true_eq]
  omega

theorem frow_le_trans (a b c : FRow) :
    frow_le a b → frow_le b c → frow_le a c := by
  simp only [frow_le, decide_eq_true_eq]
  omega

theorem finalize_pre_mem (df : List FRow) (r : FRow)
    (hr : r ∈ finalize_pre df) :
    r.features.all Option.isSome ∧ r.targets.all Option.isSome := by
  simp only [finalize_pre] at hr
  have hfeat := (List.mem_filter.1 hr).2
  have hr2 := (List.mem_filter.1 hr).1
  rcases List.mem_flatten.1 hr2 with ⟨l, hl, hrl⟩
  rcases List.mem_map.1 hl with ⟨a, _, rfl⟩
  rcases fill_asset_targets_mem _ r hrl with ⟨r0, hr0, htg⟩
  have hr0d1 := (List.mem_filter.1 hr0).1
  have htg0 := (List.mem_filter.1 hr0d1).2
  exact ⟨hfeat, htg ▸ htg0⟩

theorem keys_fill_asset (rows : List FRow) :
    (fill_asset rows).map (fun r => (r.asset, r.date))
      = rows.map (fun r => (r.asset, r.date)) :=
  fill_asset_map (fun r => (r.asset, r.date)) (fun _ _ => rfl) rows

theorem keys_filter_sublist (p : FRow → Bool) (l : List FRow) :
    ((l.filter p).map (fun r => (r.asset, r.date))).Sublist
      (l.map (fun r => (r.asset, r.date))) :=
  (List.filter_sublist l).map _

theorem fill_block_key_fst (d1 : List FRow) (a : Nat) (k : Nat × ℤ)
    (hk : k ∈ (fill_asset (d1.filter (fun r => decide (r.asset = a)))).map
      (fun r => (r.asset, r.date))) : k.1 = a := by
  rw [keys_fill_asset] at hk
  rcases List.mem_map.1 hk with ⟨r, hr, rfl⟩
  exact of_decide_eq_true (List.mem_filter.1 hr).2

theorem finalize_pre_keys_nodup (df : List FRow)
    (hkeys : (df.map (fun r => (r.asset, r.date))).Nodup) :
    ((finalize_pre df).map (fun r => (r.asset, r.date))).Nodup := by
  simp only [finalize_pre]
  apply List.Nodup.sublist (keys_filter_sublist _ _)
  rw [List.map_flatten, List.map_map]
  have hd1 : ((df.filter (fun r => r.targets.all Option.isSome)).map
      (fun r => (r.asset, r.date))).Nodup :=
    hkeys.sublist (keys_filter_sublist _ _)
  apply List.nodup_flatten.2
  constructor
  · intro l hl
    rcases List.mem_map.1 hl with ⟨a, _, rfl⟩
    simp only [Function.comp_apply, keys_fill_asset]
    exact hd1.sublist (keys_filter_sublist _ _)
  · rw [List.pairwise_map]
    apply List.Pairwise.imp ?_ (List.nodup_dedup _)
    intro a b hab
    intro k hka hkb
    simp only [Function.comp_apply] at hka hkb
    exact hab ((fill_block_key_fst _ a k hka) ▸ (fill_block_key_fst _ b k hkb))

/-- C4 (amended): the finalized table has no missing value in any feature
or target column, and is sorted by (asset, date) with, for a table whose
(asset, date) keys are unique on entry, strictly increasing dates inside
each asset and no duplicate key.  The `market_position` column, however,
is excluded from the finalizer's fill-and-drop set and can retain NaN (see
the counterexample), so "zero missing values in every column" fails. -/
theorem c4_finalize_amended (df : List FRow)
    (hkeys : (df.map (fun r => (r.asset, r.date))).Nodup) :
    (∀ r ∈ finalize_dataset df,
      r.features.all Option.isSome ∧ r.targets.all Option.isSome) ∧
    List.Pairwise (fun r s : FRow =>
      r.asset < s.asset ∨ (r.asset = s.asset ∧ r.date < s.date))
      (finalize_dataset df) := by
  constructor
  · intro r hr
    exact finalize_pre_mem df r (List.mem_mergeSort.1 hr)
  · have hsorted : List.Pairwise (fun a b => frow_le a b = true)
        (finalize_dataset df) :=
      List.sorted_mergeSort frow_le_trans frow_le_total (finalize_pre df)
    have hperm : (finalize_dataset df).Perm (finalize_pre df) :=
      List.mergeSort_perm _ _
    have hnd : ((finalize_dataset df).map (fun r => (r.asset, r.date))).Nodup :=
      ((hperm.map _).nodup_iff).2 (finalize_pre_keys_nodup df hkeys)
    have hne : List.Pairwise (fun r s : FRow =>
        (r.asset, r.date) ≠ (s.asset, s.date)) (finalize_dataset df) :=
      List.pairwise_map.1 hnd
    refine (hsorted.and hne).imp ?_
    intro r s hrs
    rcases hrs with ⟨hle, hne2⟩
    rw [frow_le, decide_eq_true_eq] at hle
    have hne3 : ¬(r.asset = s.asset ∧ r.date = s.date) := by
      intro hcon
      exact hne2 (by rw [hcon.1, hcon.2])
    rcases hle with h | h
    · exact Or.inl h
    · refine Or.inr ⟨h.1, ?_⟩
      rcases lt_or_eq_of_le h.2 with h2 | h2
      · exact h2
      · exact absurd ⟨h.1, h2⟩ hne3

theorem c4_finalize_amended_witness :
    ((([⟨0, 0, [none], market_position none, [some 0]⟩,
        ⟨0, 1, [some 50], market_position (some 50), [some 0]⟩] : List FRow)).map
      (fun r => (r.asset, r.date))).Nodup ∧
    ((∀ r ∈ finalize_dataset
        [⟨0, 0, [none], market_position none, [some 0]⟩,
         ⟨0, 1, [some 50], market_position (some 50), [some 0]⟩],
      r.features.all Option.isSome ∧ r.targets.all Option.isSome) ∧
    List.Pairwise (fun r s : FRow =>
      r.asset < s.asset ∨ (r.asset = s.asset ∧ r.date < s.date))
      (finalize_dataset
        [⟨0, 0, [none], market_position none, [some 0]⟩,
         ⟨0, 1, [some 50], market_position (some 50), [some 0]⟩])) :=
  ⟨by decide,
   c4_finalize_amended
     [⟨0, 0, [none], market_position none, [some 0]⟩,
      ⟨0, 1, [some 50], market_position (some 50), [some 0]⟩] (by decide)⟩

/-- C4 counterexample: a two-row single-asset table whose first row has a
NaN RSI — hence NaN `market_position` (as `engineer_additional_features`
computes it) and a NaN feature cell — and valid targets.  The finalizer
backfills the feature cell, so the row survives every drop, and the
finalized table still carries the missing `market_position`: the output is
NOT free of missing values in every column. -/
theorem c4_missing_value_counterexample :
    (finalize_dataset
      [⟨0, 0, [none], market_position none, [some 0]⟩,
       ⟨0, 1, [some 50], market_position (some 50), [some 0]⟩]).map (·.marketPos)
      = [none, some 1] := by
  have hpre : finalize_pre
      [⟨0, 0, [none], market_position none, [some 0]⟩,
       ⟨0, 1, [some 50], market_position (some 50), [some 0]⟩]
      = [⟨0, 0, [some 50], none, [some 0]⟩,
         ⟨0, 1, [some 50], some 1, [some 0]⟩] := by decide
  rw [finalize_dataset, hpre,
    List.mergeSort_of_sorted (by simp [frow_le])]
  decide

/-- C3: when the auxiliary tables exist but a row's trailing 7-day lag
window (inclusive of the row's date) matches no point, the composer
attaches to that row the exact sentiment defaults `0` (all four sentiment
columns) and the search-interest defaults `50` for mean/max/min/current
with `0` for std and trend — never NaN. -/
theorem c3_missing_window_defaults (sq : ℚ → ℚ) (tech : List TechRow)
    (ms : List SentDay) (tr : List TrendRow) (r : TechRow) (hr : r ∈ tech)
    (hs : sentiment_window ms 7 r.date = [])
    (ht : trends_window tr r.asset 7 r.date = []) :
    ((r, some { sentiment_mean_7d := 0, sentiment_std_7d := some 0,
                sentiment_trend_7d := 0, stress_index_7d := 0 }),
      some { trends_interest_mean_7d := 50, trends_interest_max_7d := 50,
             trends_interest_min_7d := 50, trends_interest_std_7d := some 0,
             trends_interest_trend_7d := 0, trends_interest_current := 50 })
      ∈ feature_composer sq tech (some ms) (some tr) 7 := by
  have h1 : sent_features_at ms 7 r.date =
      { sentiment_mean_7d := 0, sentiment_std_7d := some 0,
        sentiment_trend_7d := 0, stress_index_7d := 0 } := by
    simp [sent_features_at, hs]
  have h2 : trend_features_at sq tr r.asset 7 r.date =
      { trends_interest_mean_7d := 50, trends_interest_max_7d := 50,
        trends_interest_min_7d := 50, trends_interest_std_7d := some 0,
        trends_interest_trend_7d := 0, trends_interest_current := 50 } := by
    simp [trend_features_at, ht]
  rw [feature_composer, merge_sentiment_features, merge_google_trends]
  refine List.mem_map.2 ⟨(r, some (sent_features_at ms 7 r.date)),
    List.mem_map.2 ⟨r, hr, rfl⟩, ?_⟩
  rw [h1, h2]

theorem c3_missing_window_defaults_witness :
    ((⟨"BTC", 100⟩ : TechRow) ∈ ([⟨"BTC", 100⟩] : List TechRow)) ∧
    sentiment_window [⟨0, 1, some 0, 0⟩] 7 (100 : ℤ) = [] ∧
    trends_window [⟨"BTC", 0, 10⟩] "BTC" 7 (100 : ℤ) = [] ∧
    (((⟨"BTC", 100⟩ : TechRow),
      some { sentiment_mean_7d := 0, sentiment_std_7d := some 0,
             sentiment_trend_7d := 0, stress_index_7d := (0 : ℚ) }),
      some { trends_interest_mean_7d := 50, trends_interest_max_7d := 50,
             trends_interest_min_7d := 50, trends_interest_std_7d := some 0,
             trends_interest_trend_7d := 0, trends_interest_current := (50 : ℚ) })
      ∈ feature_composer (fun q => q) [⟨"BTC", 100⟩]
          (some [⟨0, 1, some 0, 0⟩]) (some [⟨"BTC", 0, 10⟩]) 7 :=
  ⟨List.mem_singleton.2 rfl, by decide, by decide,
   c3_missing_window_defaults (fun q => q) [⟨"BTC", 100⟩] [⟨0, 1, some 0, 0⟩]
     [⟨"BTC", 0, 10⟩] ⟨"BTC", 100⟩ (List.mem_singleton.2 rfl)
     (by decide) (by decide)⟩

/-- C6 counterexample: when the sentiment (or search-interest) table is
entirely absent, `merge_sentiment_features` / `merge_google_trends` return
the technical rows with NO sentiment / search-interest columns attached
(`none`), rather than attaching columns filled with the defaults 0 / 50 as
the claim states. -/
theorem c6_absent_table_counterexample :
    merge_sentiment_features [⟨"BTC", 0⟩] none 7 = [(⟨"BTC", 0⟩, none)] ∧
    merge_google_trends (fun q => q) [(⟨"BTC", 0⟩, none)] none 7
      = [((⟨"BTC", 0⟩, none), none)] ∧
    feature_composer (fun q => q) [⟨"BTC", 0⟩] none none 7
      = [((⟨"BTC", 0⟩, none), none)] :=
  ⟨rfl, rfl, rfl⟩

/-- C6 (amended): when the sentiment or search-interest table is entirely
absent the composer does not fail: it keeps every input row and returns it
unchanged, with the corresponding feature columns omitted altogether
(`none`) — the documented defaults 0 / 50 are substituted only by the
empty-window branch when the table exists. -/
theorem c6_absent_table_amended (sq : ℚ → ℚ) (tech : List TechRow)
    (pairs : List (TechRow × Option SentFeat)) (lag : ℤ) :
    (∀ p ∈ merge_sentiment_features tech none lag, p.2 = none) ∧
    (∀ r ∈ tech, (r, (none : Option SentFeat)) ∈
      merge_sentiment_features tech none lag) ∧
    (∀ p ∈ merge_google_trends sq pairs none lag, p.2 = none) ∧
    (∀ p ∈ pairs, (p, (none : Option TrendFeat)) ∈
      merge_google_trends sq pairs none lag) := by
  refine ⟨?_, ?_, ?_, ?_⟩
  · intro p hp
    rcases List.mem_map.1 hp with ⟨r, _, hr⟩
    rw [← hr]
  · intro r hr
    exact List.mem_map.2 ⟨r, hr, rfl⟩
  · intro p hp
    rcases List.mem_map.1 hp with ⟨q, _, hq⟩
    rw [← hq]
  · intro p hp
    exact List.mem_map.2 ⟨p, hp, rfl⟩

theorem c6_absent_table_amended_witness :
    (∀ p ∈ merge_sentiment_features [⟨"BTC", 0⟩] none 7, p.2 = none) ∧
    (∀ r ∈ ([⟨"BTC", 0⟩] : List TechRow), (r, (none : Option SentFeat)) ∈
      merge_sentiment_features [⟨"BTC", 0⟩] none 7) ∧
    (∀ p ∈ merge_google_trends (fun q => q) [(⟨"BTC", 0⟩, none)] none 7,
      p.2 = none) ∧
    (∀ p ∈ ([(⟨"BTC", 0⟩, none)] : List (TechRow × Option SentFeat)),
      (p, (none : Option TrendFeat)) ∈
        merge_google_trends (fun q => q) [(⟨"BTC", 0⟩, none)] none 7) :=
  c6_absent_table_amended (fun q => q) [⟨"BTC", 0⟩] [(⟨"BTC", 0⟩, none)] 7

/-- C9: the Feature Composer is deterministic — two runs on equal input
tables produce equal outputs.  The embedding is a pure function of its
inputs because the source functions compute from their arguments only:
no randomness, wall clock, or iteration nondeterminism. -/
theorem c9_composer_deterministic (sq : ℚ → ℚ)
    (t1 t2 : List TechRow) (m1 m2 : Option (List SentDay))
    (g1 g2 : Option (List TrendRow)) (lag1 lag2 : ℤ)
    (ht : t1 = t2) (hm : m1 = m2) (hg : g1 = g2) (hl : lag1 = lag2) :
    feature_composer sq t1 m1 g1 lag1 = feature_composer sq t2 m2 g2 lag2 := by
  subst ht; subst hm; subst hg; subst hl; rfl

theorem filter_map_key_nil {β : Type} (f : ℤ → β) (key : β → ℤ)
    (hf : ∀ x, key (f x) = x) (L : List ℤ) (d : ℤ) (hd : d ∉ L) :
    (L.map f).filter (fun r => decide (key r = d)) = [] := by
  apply List.filter_eq_nil_iff.2
  intro r hr
  rcases List.mem_map.1 hr with ⟨x, hx, rfl⟩
  simp only [hf, decide_eq_true_eq]
  rintro rfl
  exact hd hx

theorem filter_map_key_single {β : Type} (f : ℤ → β) (key : β → ℤ)
    (hf : ∀ x, key (f x) = x) :
    ∀ (L : List ℤ), L.Nodup → ∀ d ∈ L,
      (L.map f).filter (fun r => decide (key r = d)) = [f d]
  | [] => by intro _ d hd; exact absurd hd (List.not_mem_nil d)
  | x :: L => by
    intro hnd d hd
    have hx : x ∉ L := (List.nodup_cons.1 hnd).1
    have hL : L.Nodup := (List.nodup_cons.1 hnd).2
    rcases List.mem_cons.1 hd with rfl | hdL
    · rw [List.map_cons, List.filter_cons_of_pos (by simp [hf])]
      rw [filter_map_key_nil f key hf L d hx]
    · have hxd : x ≠ d := fun h => hx (h ▸ hdL)
      rw [List.map_cons, List.filter_cons_of_neg (by simp [hf, hxd])]
      exact filter_map_key_single f key hf L hL d hdL

/-- C8: every calendar date with at least one sentiment event yields exactly
one row of the daily market-sentiment table, holding the mean, sample std,
min and max of that date's scores, `balance = #positive − #negative` and
`stress_index = std·100` with NaN std filled by 0 — in particular
`stress_index = 0` when the date has exactly one event; a date with no
event yields no row. -/
theorem c8_daily_market_sentiment (sq : ℚ → ℚ) (evs : List NewsEvent) (d : ℤ)
    (h : ∃ e ∈ evs, e.date = d) :
    ((calculate_market_sentiment sq evs).filter (fun r => decide (r.date = d)))
      = [{ date := d
           sentiment_mean :=
             mean_q ((evs.filter (fun e => decide (e.date = d))).map (·.score))
           sentiment_std :=
             sample_std sq ((evs.filter (fun e => decide (e.date = d))).map (·.score))
           sentiment_min :=
             (((evs.filter (fun e => decide (e.date = d))).map (·.score)).min?).getD 0
           sentiment_max :=
             (((evs.filter (fun e => decide (e.date = d))).map (·.score)).max?).getD 0
           sentiment_balance :=
             ((evs.filter (fun e => decide (e.date = d))).countP
               (fun e => decide (e.label = SentLabel.positive)) : ℤ)
             - ((evs.filter (fun e => decide (e.date = d))).countP
               (fun e => decide (e.label = SentLabel.negative)) : ℤ)
           stress_index :=
             ((sample_std sq
               ((evs.filter (fun e => decide (e.date = d))).map (·.score))).getD 0)
             * 100 }] ∧
    ((evs.filter (fun e => decide (e.date = d))).length = 1 →
      ∀ r ∈ calculate_market_sentiment sq evs, r.date = d →
        r.stress_index = 0) ∧
    (∀ d2 : ℤ, (∀ e ∈ evs, e.date ≠ d2) →
      (calculate_market_sentiment sq evs).filter
        (fun r => decide (r.date = d2)) = []) := by
  have hf : ∀ x, (daily_row_of sq x
      (evs.filter (fun e => decide (e.date = x)))).date = x := fun _ => rfl
  have hnd : (((evs.map (·.date)).dedup).mergeSort
      (fun a b => decide (a ≤ b))).Nodup :=
    (List.mergeSort_perm _ _).nodup_iff.mpr (List.nodup_dedup _)
  refine ⟨?_, ?_, ?_⟩
  · have hdL : d ∈ ((evs.map (·.date)).dedup).mergeSort
        (fun a b => decide (a ≤ b)) := by
      rcases h with ⟨e, he, hed⟩
      exact List.mem_mergeSort.2 (List.mem_dedup.2 (List.mem_map.2 ⟨e, he, hed⟩))
    rw [calculate_market_sentiment]
    rw [filter_map_key_single
      (fun x => daily_row_of sq x (evs.filter (fun e => decide (e.date = x))))
      DailyRow.date hf _ hnd d hdL]
    rfl
  · intro hlen r hr hrd
    rcases List.mem_map.1 hr with ⟨x, _, hx⟩
    have hxd : x = d := by rw [← hrd, ← hx]; exact (hf x).symm
    subst hxd
    rw [← hx]
    have hslen : ((evs.filter (fun e => decide (e.date = x))).map
        (fun e => e.score)).length = 1 := by
      rw [List.length_map]; exact hlen
    simp [daily_row_of, sample_std, sample_var, hslen]
  · intro d2 h2
    have hd2 : d2 ∉ ((evs.map (·.date)).dedup).mergeSort
        (fun a b => decide (a ≤ b)) := by
      intro hmem
      rcases List.mem_map.1 (List.mem_dedup.1 (List.mem_mergeSort.1 hmem)) with
        ⟨e, he, hed⟩
      exact h2 e he hed
    rw [calculate_market_sentiment]
    exact filter_map_key_nil
      (fun x => daily_row_of sq x (evs.filter (fun e => decide (e.date = x))))
      DailyRow.date hf _ d2 hd2

theorem length_rolling_mean (w : Nat) (xs : List ℚ) :
    (rolling_mean w xs).length = xs.length := by
  simp [rolling_mean]

theorem length_diffs (xs : List ℚ) : (diffs xs).length = xs.length := by
  simp [diffs]

theorem length_gains (xs : List ℚ) : (gains xs).length = xs.length := by
  simp [gains, length_diffs]

theorem length_losses (xs : List ℚ) : (losses xs).length = xs.length := by
  simp [losses, length_diffs]

theorem length_calculate_rsi (xs : List ℚ) (p : Nat) :
    (calculate_rsi xs p).length = xs.length := by
  simp [calculate_rsi, List.length_zipWith, length_rolling_mean,
    length_gains, length_losses]

theorem rolling_mean_getElem (w : Nat) (xs : List ℚ) (i : Nat)
    (hi : i < xs.length) :
    (rolling_mean w xs)[i]? =
      some (if w ≤ i + 1 then some ((((xs.drop (i + 1 - w)).take w).sum) / w)
            else none) := by
  rw [rolling_mean, List.getElem?_map, List.getElem?_range hi, Option.map_some']

theorem gains_nonneg (xs : List ℚ) : ∀ x ∈ gains xs, 0 ≤ x := by
  intro x hx
  rcases List.mem_map.1 hx with ⟨d, _, rfl⟩
  cases d with
  | num q =>
    dsimp only
    split_ifs with h
    · exact le_of_lt h
    · exact le_refl 0
  | inf => exact le_refl 0
  | ninf => exact le_refl 0
  | nan => exact le_refl 0

theorem losses_nonneg (xs : List ℚ) : ∀ x ∈ losses xs, 0 ≤ x := by
  intro x hx
  rcases List.mem_map.1 hx with ⟨d, _, rfl⟩
  cases d with
  | num q =>
    dsimp only
    split_ifs with h
    · linarith
    · exact le_refl 0
  | inf => exact le_refl 0
  | ninf => exact le_refl 0
  | nan => exact le_refl 0

theorem diffs_replicate (n : Nat) (c : ℚ) :
    ∀ d ∈ diffs (List.replicate n c), d = PFloat.nan ∨ d = PFloat.num 0 := by
  intro d hd
  rcases List.mem_map.1 hd with ⟨i, hi, rfl⟩
  have hin : i < n := by simpa using List.mem_range.1 hi
  by_cases h0 : i = 0
  · left; simp [h0]
  · right
    have h1 : (List.replicate n c)[i]? = some c :=
      List.getElem?_replicate_of_lt hin
    have h2 : (List.replicate n c)[i - 1]? = some c :=
      List.getElem?_replicate_of_lt (lt_of_le_of_lt (Nat.sub_le i 1) hin)
    simp [h0, h1, h2]

theorem gains_replicate_zero (n : Nat) (c : ℚ) :
    ∀ x ∈ gains (List.replicate n c), x = 0 := by
  intro x hx
  rcases List.mem_map.1 hx with ⟨d, hd, rfl⟩
  rcases diffs_replicate n c d hd with rfl | rfl
  · rfl
  · simp

theorem losses_replicate_zero (n : Nat) (c : ℚ) :
    ∀ x ∈ losses (List.replicate n c), x = 0 := by
  intro x hx
  rcases List.mem_map.1 hx with ⟨d, hd, rfl⟩
  rcases diffs_replicate n c d hd with rfl | rfl
  · rfl
  · simp

theorem window_mean_zero (w : Nat) (xs : List ℚ) (hx : ∀ x ∈ xs, x = 0)
    (i : Nat) (hi : i < xs.length) (hwi : w ≤ i + 1) :
    (rolling_mean w xs)[i]? = some (some 0) := by
  rw [rolling_mean_getElem w xs i hi, if_pos hwi]
  have hsum : (((xs.drop (i + 1 - w)).take w).sum) = 0 :=
    List.sum_eq_zero (fun x hxm =>
      hx x (List.drop_subset _ _ (List.take_subset _ _ hxm)))
  rw [hsum]
  norm_num

/-- C5 counterexample: on a constant 120-observation close series (the
spec's own scenario) the trailing average gain and average loss at row 13
are both 0, so `rs = 0/0` is NaN and the RSI is NaN — not 100 as the claim
states for every zero-average-loss window, and not numeric from row
`period - 1` on. -/
theorem c5_rsi_flat_window_counterexample :
    (rolling_mean 14 (losses (List.replicate 120 (100 : ℚ))))[13]? = some (some 0) ∧
    (rolling_mean 14 (gains (List.replicate 120 (100 : ℚ))))[13]? = some (some 0) ∧
    (calculate_rsi (List.replicate 120 (100 : ℚ)) 14)[13]? = some PFloat.nan := by
  have hlg : (gains (List.replicate 120 (100 : ℚ))).length = 120 := by
    rw [length_gains, List.length_replicate]
  have hll : (losses (List.replicate 120 (100 : ℚ))).length = 120 := by
    rw [length_losses, List.length_replicate]
  have hG := window_mean_zero 14 (gains (List.replicate 120 (100 : ℚ)))
    (gains_replicate_zero 120 100) 13 (by rw [hlg]; norm_num) (by norm_num)
  have hL := window_mean_zero 14 (losses (List.replicate 120 (100 : ℚ)))
    (losses_replicate_zero 120 100) 13 (by rw [hll]; norm_num) (by norm_num)
  refine ⟨hL, hG, ?_⟩
  rw [calculate_rsi, List.getElem?_zipWith, hG, hL]
  simp [rsi_of_means, PFloat.div, PFloat.add, PFloat.sub]

/-- C5 (amended): with period `p`, the RSI column is NaN for the first
`p - 1` rows.  From row `p - 1` on, writing `G`/`L` for the trailing
average gain/loss (both are nonnegative): when `G = L = 0` (a flat window,
e.g. a constant series) the RSI is NaN; when `L = 0 < G` it is 100; and
when `0 < L` it is numeric and lies in `[0, 100]`. -/
theorem c5_rsi_amended (xs : List ℚ) (p : Nat) :
    (∀ i, i < xs.length → i + 1 < p →
      (calculate_rsi xs p)[i]? = some PFloat.nan) ∧
    (∀ i G L, i < xs.length →
      (rolling_mean p (gains xs))[i]? = some (some G) →
      (rolling_mean p (losses xs))[i]? = some (some L) →
      (0 ≤ G ∧ 0 ≤ L) ∧
      (L = 0 → G = 0 → (calculate_rsi xs p)[i]? = some PFloat.nan) ∧
      (L = 0 → 0 < G → (calculate_rsi xs p)[i]? = some (PFloat.num 100)) ∧
      (0 < L → ∃ q, (calculate_rsi xs p)[i]? = some (PFloat.num q) ∧
        0 ≤ q ∧ q ≤ 100)) := by
  constructor
  · intro i hixs hip
    have hi1 : i < (gains xs).length := by rw [length_gains]; exact hixs
    have hi2 : i < (losses xs).length := by rw [length_losses]; exact hixs
    rw [calculate_rsi, List.getElem?_zipWith,
      rolling_mean_getElem p (gains xs) i hi1,
      rolling_mean_getElem p (losses xs) i hi2,
      if_neg (by omega), if_neg (by omega)]
    rfl
  · intro i G L hixs hG hL
    have hi1 : i < (gains xs).length := by rw [length_gains]; exact hixs
    have hi2 : i < (losses xs).length := by rw [length_losses]; exact hixs
    have hrsi : (calculate_rsi xs p)[i]? =
        some (rsi_of_means (some G) (some L)) := by
      rw [calculate_rsi, List.getElem?_zipWith, hG, hL]
    have hG2 := hG
    rw [rolling_mean_getElem p (gains xs) i hi1] at hG2
    have hL2 := hL
    rw [rolling_mean_getElem p (losses xs) i hi2] at hL2
    by_cases hp : p ≤ i + 1
    case neg =>
      rw [if_neg hp] at hG2
      exact absurd hG2 (by simp)
    rw [if_pos hp] at hG2
    rw [if_pos hp] at hL2
    have hGeq : ((((gains xs).drop (i + 1 - p)).take p).sum) / p = G := by
      simpa using hG2
    have hLeq : ((((losses xs).drop (i + 1 - p)).take p).sum) / p = L := by
      simpa using hL2
    have hG0 : 0 ≤ G := by
      rw [← hGeq]
      apply div_nonneg
      · exact List.sum_nonneg (fun x hxm => gains_nonneg xs x
          (List.drop_subset _ _ (List.take_subset _ _ hxm)))
      · positivity
    have hL0 : 0 ≤ L := by
      rw [← hLeq]
      apply div_nonneg
      · exact List.sum_nonneg (fun x hxm => losses_nonneg xs x
          (List.drop_subset _ _ (List.take_subset _ _ hxm)))
      · positivity
    refine ⟨⟨hG0, hL0⟩, ?_, ?_, ?_⟩
    · rintro rfl rfl
      rw [hrsi]
      simp [rsi_of_means, PFloat.div, PFloat.add, PFloat.sub]
    · rintro rfl hGpos
      rw [hrsi]
      simp [rsi_of_means, PFloat.div, PFloat.add, PFloat.sub,
        hGpos, hGpos.ne']
    · intro hLpos
      refine ⟨100 - 100 / (1 + G / L), ?_, ?_, ?_⟩
      · rw [hrsi]
        have hden : (0 : ℚ) < 1 + G / L := by
          have : (0 : ℚ) ≤ G / L := div_nonneg hG0 (le_of_lt hLpos)
          linarith
        simp only [rsi_of_means, PFloat.div, PFloat.add, PFloat.sub,
          if_neg hLpos.ne', if_neg hden.ne']
      · have hle : 100 / (1 + G / L) ≤ 100 := by
          have h1 : (0 : ℚ) ≤ G / L := div_nonneg hG0 (le_of_lt hLpos)
          have h2 : (0 : ℚ) < 1 + G / L := by linarith
          rw [div_le_iff₀ h2]
          nlinarith
        linarith
      · have hpos : 0 < 100 / (1 + G / L) := by
          have h1 : (0 : ℚ) ≤ G / L := div_nonneg hG0 (le_of_lt hLpos)
          have h2 : (0 : ℚ) < 1 + G / L := by linarith
          positivity
        linarith

theorem c5_rsi_amended_witness :
    (calculate_rsi (List.replicate 120 (100 : ℚ)) 14)[5]? = some PFloat.nan ∧
    (calculate_rsi (List.replicate 120 (100 : ℚ)) 14)[13]? = some PFloat.nan :=
  ⟨(c5_rsi_amended (List.replicate 120 100) 14).1 5
      (by rw [List.length_replicate]; norm_num) (by norm_num),
   ((c5_rsi_amended (List.replicate 120 100) 14).2 13 0 0
      (by rw [List.length_replicate]; norm_num)
      (window_mean_zero 14 (gains (List.replicate 120 (100 : ℚ)))
        (gains_replicate_zero 120 100) 13
        (by rw [length_gains, List.length_replicate]; norm_num) (by norm_num))
      (window_mean_zero 14 (losses (List.replicate 120 (100 : ℚ)))
        (losses_replicate_zero 120 100) 13
        (by rw [length_losses, List.length_replicate]; norm_num)
        (by norm_num))).2.1 rfl rfl⟩

theorem of_mem_zipWith {α β γ : Type} {f : α → β → γ} :
    ∀ {as : List α} {bs : List β} {x : γ}, x ∈ List.zipWith f as bs →
      ∃ a ∈ as, ∃ b ∈ bs, x = f a b
  | [], _, x, h => by simp at h
  | _ :: _, [], x, h => by simp at h
  | a :: as, b :: bs, x, h => by
    rcases List.mem_cons.1 h with rfl | h2
    · exact ⟨a, List.mem_cons_self a as, b, List.mem_cons_self b bs, rfl⟩
    · rcases of_mem_zipWith h2 with ⟨a2, ha, b2, hb, rfl⟩
      exact ⟨a2, List.mem_cons_of_mem a ha, b2, List.mem_cons_of_mem b hb, rfl⟩

theorem length_process_asset (rows : List PriceRow) :
    (process_asset rows).length = rows.length := by
  simp [process_asset, List.length_zipWith, length_calculate_rsi]

theorem process_asset_mem_asset (rows : List PriceRow) (r : FeatRow)
    (hr : r ∈ process_asset rows) : ∃ pr ∈ rows, r.asset = pr.asset := by
  rcases of_mem_zipWith hr with ⟨pr, hpr, v, hv, rfl⟩
  exact ⟨pr, List.mem_mergeSort.1 hpr, rfl⟩

theorem tech_block_asset (df : List PriceRow) (a : String) (r : FeatRow)
    (hr : r ∈ tech_block df a) : r.asset = a := by
  simp only [tech_block] at hr
  by_cases hc : (df.filter (fun x => decide (x.asset = a))).length < 100
  · rw [if_pos hc] at hr
    exact absurd hr (List.not_mem_nil r)
  · rw [if_neg hc] at hr
    rcases process_asset_mem_asset _ r hr with ⟨pr, hpr, heq⟩
    have hpa : pr.asset = a := of_decide_eq_true (List.mem_filter.1 hpr).2
    rw [heq, hpa]

theorem filter_flatten_blocks {α : Type} (key : α → String)
    (blocks : String → List α)
    (hkey : ∀ a, ∀ r ∈ blocks a, key r = a) :
    ∀ (A : List String), A.Nodup → ∀ b ∈ A,
      ((A.map blocks).flatten.filter (fun r => decide (key r = b))) = blocks b
  | [] => by intro _ b hb; exact absurd hb (List.not_mem_nil b)
  | a :: A => by
    intro hnd b hb
    have ha : a ∉ A := (List.nodup_cons.1 hnd).1
    have hA : A.Nodup := (List.nodup_cons.1 hnd).2
    rw [List.map_cons, List.flatten_cons, List.filter_append]
    rcases List.mem_cons.1 hb with rfl | hbA
    · have h1 : (blocks b).filter (fun r => decide (key r = b)) = blocks b :=
        List.filter_eq_self.2 (fun r hr => by simp [hkey b r hr])
      have h2 : ((A.map blocks).flatten).filter
          (fun r => decide (key r = b)) = [] := by
        apply List.filter_eq_nil_iff.2
        intro r hr
        rcases List.mem_flatten.1 hr with ⟨l, hl, hrl⟩
        rcases List.mem_map.1 hl with ⟨a2, ha2, rfl⟩
        simp only [hkey a2 r hrl, decide_eq_true_eq]
        rintro rfl
        exact ha ha2
      rw [h1, h2, List.append_nil]
    · have hab : a ≠ b := fun h => ha (h ▸ hbA)
      have h1 : (blocks a).filter (fun r => decide (key r = b)) = [] := by
        apply List.filter_eq_nil_iff.2
        intro r hr
        simp [hkey a r hr, hab]
      rw [h1, List.nil_append]
      exact filter_flatten_blocks key blocks hkey A hA b hbA

/-- C7: an asset whose price series has fewer than 100 rows contributes no
row at all to the Indicator Engine output, while every asset with at least
100 rows is still processed in full — one output row per input row — so the
skip is non-fatal for the rest of the run. -/
theorem c7_short_assets_skipped (df : List PriceRow) (a : String)
    (h : (df.filter (fun r => decide (r.asset = a))).length < 100) :
    (∀ r ∈ calculate_technical_features df, r.asset ≠ a) ∧
    (∀ b : String, 100 ≤ (df.filter (fun r => decide (r.asset = b))).length →
      ((calculate_technical_features df).filter
        (fun r => decide (r.asset = b))).length
        = (df.filter (fun r => decide (r.asset = b))).length) := by
  constructor
  · intro r hr haeq
    rw [calculate_technical_features] at hr
    rcases List.mem_flatten.1 hr with ⟨l, hl, hrl⟩
    rcases List.mem_map.1 hl with ⟨aname, hanames, rfl⟩
    have hasset : r.asset = aname := tech_block_asset df aname r hrl
    have hana : aname = a := by rw [← hasset, haeq]
    subst hana
    simp only [tech_block] at hrl
    rw [if_pos h] at hrl
    exact List.not_mem_nil r hrl
  · intro b hb
    have hpos : 0 < (df.filter (fun r => decide (r.asset = b))).length :=
      lt_of_lt_of_le (by norm_num) hb
    obtain ⟨r0, hr0⟩ := List.exists_mem_of_length_pos hpos
    have hr0b : r0.asset = b := of_decide_eq_true (List.mem_filter.1 hr0).2
    have hbmem : b ∈ (df.map (·.asset)).dedup :=
      List.mem_dedup.2 (List.mem_map.2 ⟨r0, (List.mem_filter.1 hr0).1, hr0b⟩)
    rw [calculate_technical_features]
    rw [filter_flatten_blocks FeatRow.asset (tech_block df)
      (tech_block_asset df) _ (List.nodup_dedup _) b hbmem]
    simp only [tech_block]
    rw [if_neg (not_lt.2 hb)]
    exact length_process_asset _

theorem c7_short_assets_skipped_witness :
    ((List.replicate 50 (⟨"X", 0, 1⟩ : PriceRow)).filter
      (fun r => decide (r.asset = "X"))).length < 100 ∧
    ((∀ r ∈ calculate_technical_features
        (List.replicate 50 (⟨"X", 0, 1⟩ : PriceRow)), r.asset ≠ "X") ∧
    (∀ b : String,
      100 ≤ ((List.replicate 50 (⟨"X", 0, 1⟩ : PriceRow)).filter
        (fun r => decide (r.asset = b))).length →
      ((calculate_technical_features
          (List.replicate 50 (⟨"X", 0, 1⟩ : PriceRow))).filter
        (fun r => decide (r.asset = b))).length
        = ((List.replicate 50 (⟨"X", 0, 1⟩ : PriceRow)).filter
        (fun r => decide (r.asset = b))).length)) :=
  ⟨by decide,
   c7_short_assets_skipped (List.replicate 50 (⟨"X", 0, 1⟩ : PriceRow)) "X"
     (by decide)⟩

theorem c8_daily_market_sentiment_witness :
    (∃ e ∈ ([⟨5, 1, SentLabel.positive⟩] : List NewsEvent), e.date = 5) ∧
    (((calculate_market_sentiment (fun q => q) [⟨5, 1, SentLabel.positive⟩]).filter
        (fun r => decide (r.date = 5)))
      = [{ date := 5
           sentiment_mean :=
             mean_q ((([⟨5, 1, SentLabel.positive⟩] : List NewsEvent).filter
               (fun e => decide (e.date = 5))).map (·.score))
           sentiment_std :=
             sample_std (fun q => q)
               ((([⟨5, 1, SentLabel.positive⟩] : List NewsEvent).filter
                 (fun e => decide (e.date = 5))).map (·.score))
           sentiment_min :=
             (((([⟨5, 1, SentLabel.positive⟩] : List NewsEvent).filter
               (fun e => decide (e.date = 5))).map (·.score)).min?).getD 0
           sentiment_max :=
             (((([⟨5, 1, SentLabel.positive⟩] : List NewsEvent).filter
               (fun e => decide (e.date = 5))).map (·.score)).max?).getD 0
           sentiment_balance :=
             ((([⟨5, 1, SentLabel.positive⟩] : List NewsEvent).filter
               (fun e => decide (e.date = 5))).countP
               (fun e => decide (e.label = SentLabel.positive)) : ℤ)
             - ((([⟨5, 1, SentLabel.positive⟩] : List NewsEvent).filter
               (fun e => decide (e.date = 5))).countP
               (fun e => decide (e.label = SentLabel.negative)) : ℤ)
           stress_index :=
             ((sample_std (fun q => q)
               ((([⟨5, 1, SentLabel.positive⟩] : List NewsEvent).filter
                 (fun e => decide (e.date = 5))).map (·.score))).getD 0)
             * 100 }] ∧
    ((([⟨5, 1, SentLabel.positive⟩] : List NewsEvent).filter
        (fun e => decide (e.date = 5))).length = 1 →
      ∀ r ∈ calculate_market_sentiment (fun q => q) [⟨5, 1, SentLabel.positive⟩],
        r.date = 5 → r.stress_index = 0) ∧
    (∀ d2 : ℤ, (∀ e ∈ ([⟨5, 1, SentLabel.positive⟩] : List NewsEvent),
        e.date ≠ d2) →
      (calculate_market_sentiment (fun q => q) [⟨5, 1, SentLabel.positive⟩]).filter
        (fun r => decide (r.date = d2)) = [])) :=
  ⟨⟨⟨5, 1, SentLabel.positive⟩, List.mem_singleton.2 rfl, rfl⟩,
   c8_daily_market_sentiment (fun q => q) [⟨5, 1, SentLabel.positive⟩] 5
     ⟨⟨5, 1, SentLabel.positive⟩, List.mem_singleton.2 rfl, rfl⟩⟩

theorem c9_composer_deterministic_witness :
    ([⟨"BTC", 0⟩] : List TechRow) = [⟨"BTC", 0⟩] ∧
    feature_composer (fun q => q) [⟨"BTC", 0⟩] (some [⟨0, 1, some 0, 0⟩]) none 7
      = feature_composer (fun q => q) [⟨"BTC", 0⟩] (some [⟨0, 1, some 0, 0⟩]) none 7 :=
  ⟨rfl, c9_composer_deterministic (fun q => q) _ _ _ _ _ _ _ _ rfl rfl rfl rfl⟩

end PTB
